import Mathlib

/-!
# Verification of the YTMusic scrobbler reconciliation core

Shallow embedding of the pure reconciliation/normalization logic of
`scrobble_oracle.py` and `history_manager.py` (strings are modelled over their
character lists; Python machine-independent `int` is modelled by `Int`/`Nat`;
Python regular-expression substitution is modelled by a small matcher covering
exactly the constructs the source patterns use: literal characters, `\s*`,
`\s+`, `\b` and `$`, with Python's leftmost / greedy-with-backtracking /
non-overlapping `re.sub` semantics and the Python rule that `$` also matches
just before a final newline).  Character classes (`\s`, `\w`, case folding)
are modelled at ASCII precision.
-/

namespace ScrobbleOracle

/-- ASCII model of Python's `\s` character class: space, tab, newline,
carriage return, vertical tab, form feed.  Also the set stripped by
Python's `str.strip()`. -/
def isPySpace (c : Char) : Bool :=
  c = ' ' || c = '\t' || c = '\n' || c = '\r' || c = Char.ofNat 11 || c = Char.ofNat 12

/-- ASCII model of Python's `\w` character class. -/
def isPyWord (c : Char) : Bool :=
  c.isAlphanum || c = '_'

/-- `str.strip()`: remove leading and trailing whitespace. -/
def pyStrip (s : List Char) : List Char :=
  ((s.dropWhile isPySpace).reverse.dropWhile isPySpace).reverse

/-- The regular-expression constructs appearing in the source's patterns. -/
inductive RElem where
  /-- a literal character (matched case-insensitively under `re.IGNORECASE`) -/
  | lit (c : Char)
  /-- `\s*` -/
  | ws0
  /-- `\s+` -/
  | ws1
  /-- `\b` word boundary -/
  | wb
  /-- `$` end of string (or just before a final newline) -/
  | eos
deriving DecidableEq

/-- Literal match, optionally case-insensitive (ASCII case folding, as the
patterns only contain ASCII letters). -/
def litMatches (ci : Bool) (c d : Char) : Bool :=
  if ci then c.toLower = d.toLower else c = d

/-- Python `\b`: the two sides differ in word-character-ness. -/
def wordBoundary (prev next : Option Char) : Bool :=
  (match prev with | some c => isPyWord c | none => false)
    != (match next with | some c => isPyWord c | none => false)

/-- Backtracking matcher at a fixed position.  `prev` is the character just
before the position (for `\b`).  Returns the remaining suffix after the match.
Greedy `\s*`/`\s+` with backtracking, exactly Python's order of attempts.
`fuel` is only for structural termination; `p.length + rest.length + 1`
always suffices (every step shrinks the pattern or the input). -/
def reMatchF (ci : Bool) : Nat → List RElem → Option Char → List Char → Option (List Char)
  | 0, _, _, _ => none
  | _ + 1, [], _, rest => some rest
  | fuel + 1, .lit c :: ps, _, d :: ds =>
      if litMatches ci c d then reMatchF ci fuel ps (some d) ds else none
  | _ + 1, .lit _ :: _, _, [] => none
  | fuel + 1, .ws0 :: ps, prev, d :: ds =>
      if isPySpace d then
        match reMatchF ci fuel (.ws0 :: ps) (some d) ds with
        | some rem => some rem
        | none => reMatchF ci fuel ps prev (d :: ds)
      else reMatchF ci fuel ps prev (d :: ds)
  | fuel + 1, .ws0 :: ps, prev, [] => reMatchF ci fuel ps prev []
  | fuel + 1, .ws1 :: ps, _, d :: ds =>
      if isPySpace d then reMatchF ci fuel (.ws0 :: ps) (some d) ds else none
  | _ + 1, .ws1 :: _, _, [] => none
  | fuel + 1, .wb :: ps, prev, rest =>
      if wordBoundary prev rest.head? then reMatchF ci fuel ps prev rest else none
  | fuel + 1, .eos :: ps, prev, rest =>
      if rest = [] || rest = ['\n'] then reMatchF ci fuel ps prev rest else none

/-- Match attempt with always-sufficient fuel. -/
def reMatch (ci : Bool) (p : List RElem) (prev : Option Char) (rest : List Char) :
    Option (List Char) :=
  reMatchF ci (p.length + rest.length + 1) p prev rest

/-- One global substitution pass, Python `re.sub` semantics: scan left to
right, replace each leftmost non-overlapping match, resume after it (a
zero-width match substitutes and advances one character, as in Python 3.7+).
`prev` tracks the character preceding the scan position in the *original*
text, for `\b`.  `fuel = s.length + 1` always suffices. -/
def reSubF (ci : Bool) (p : List RElem) (repl : List Char) :
    Nat → Option Char → List Char → List Char
  | 0, _, s => s
  | _ + 1, prev, [] =>
      match reMatch ci p prev [] with
      | some _ => repl
      | none => []
  | fuel + 1, prev, d :: ds =>
      match reMatch ci p prev (d :: ds) with
      | some rem =>
          let n := (d :: ds).length - rem.length
          if n = 0 then repl ++ d :: reSubF ci p repl fuel (some d) ds
          else repl ++ reSubF ci p repl fuel (((d :: ds).take n).getLast?.getD d) rem
      | none => d :: reSubF ci p repl fuel (some d) ds

/-- `re.sub(pattern, repl, s)` on the whole string. -/
def reSub (ci : Bool) (p : List RElem) (repl : List Char) (s : List Char) : List Char :=
  reSubF ci p repl (s.length + 1) none s

/-- Minimum number of characters any successful match of a pattern consumes:
each literal and each `\s+` consumes at least one character. -/
def minConsume : List RElem → Nat
  | [] => 0
  | .lit _ :: ps => minConsume ps + 1
  | .ws1 :: ps => minConsume ps + 1
  | .ws0 :: ps => minConsume ps
  | .wb :: ps => minConsume ps
  | .eos :: ps => minConsume ps

/-- Literal characters of a pattern. -/
def lits (s : String) : List RElem := s.data.map RElem.lit

/-- Pattern `\s*LIT$`. -/
def endPat (s : String) : List RElem := RElem.ws0 :: lits s ++ [RElem.eos]

/-- Pattern `\s*LIT\s+`. -/
def midPat (s : String) : List RElem := RElem.ws0 :: lits s ++ [RElem.ws1]

/-- Pattern `\s*\bLIT\b\s*`. -/
def wordPat (s : String) : List RElem :=
  RElem.ws0 :: RElem.wb :: lits s ++ [RElem.wb, RElem.ws0]

/-- Pattern `\s*\bLIT\s*` (used for the `feat.`/`ft.`/`vs.` variants, whose
trailing `.` is a literal and carries no closing `\b`). -/
def wordDotPat (s : String) : List RElem :=
  RElem.ws0 :: RElem.wb :: lits s ++ [RElem.ws0]

/-- `youtube_suffixes` of `clean_youtube_metadata` (scrobble_oracle.py:200-206). -/
def youtube_suffixes : List (List RElem) :=
  [[RElem.ws0, RElem.lit '-', RElem.ws0] ++ lits "Topic" ++ [RElem.eos],
   endPat "VEVO", endPat "Records", endPat "Music", endPat "Official"]

/-- The 13 bracketed/parenthesized qualifier texts of `title_cleanups`
(scrobble_oracle.py:213-242); used end-anchored first, then mid-string. -/
def title_cleanup_texts : List String :=
  ["(Official Video)", "(Official Audio)", "(Official Music Video)",
   "(Lyric Video)", "(Lyrics)", "[Official Video]", "[Official Audio]",
   "[Lyric Video]", "[Lyrics]", "(HD)", "[HD]", "(4K)", "[4K]"]

/-- `clean_youtube_metadata` (scrobble_oracle.py:192-254). -/
def clean_youtube_metadata (text : String) (is_artist : Bool) : String :=
  if text = "" then ""
  else
    let t := pyStrip text.data
    let t := youtube_suffixes.foldl (fun acc p => reSub true p [] acc) t
    let t :=
      if is_artist then t
      else
        let t := (title_cleanup_texts.map endPat).foldl (fun acc p => reSub true p [] acc) t
        (title_cleanup_texts.map midPat).foldl (fun acc p => reSub true p [' '] acc) t
    ⟨pyStrip t⟩

/-- `featuring_patterns` of `normalize_featuring_artists`
(scrobble_oracle.py:263-276), in source order. -/
def featuring_patterns : List (List RElem) :=
  [wordPat "featuring", wordDotPat "feat.", wordPat "feat",
   wordDotPat "ft.", wordPat "ft", wordPat "with", wordPat "x",
   wordPat "versus", wordDotPat "vs.", wordPat "vs", wordPat "and",
   [RElem.ws0, RElem.lit '&', RElem.ws0]]

/-- The replacement text `" ft "`. -/
def ftRepl : List Char := [' ', 'f', 't', ' ']

/-- The doubled-token collapse pattern `\s*ft\s+ft\s*` (case-sensitive,
scrobble_oracle.py:283). -/
def ftCollapseP : List RElem :=
  RElem.ws0 :: lits "ft" ++ [RElem.ws1] ++ lits "ft" ++ [RElem.ws0]

/-- `normalize_featuring_artists` (scrobble_oracle.py:257-288). -/
def normalize_featuring_artists (text : String) : String :=
  if text = "" then ""
  else
    let t := featuring_patterns.foldl (fun acc p => reSub true p ftRepl acc) text.data
    let t := reSub false ftCollapseP ftRepl t
    let t := reSub false [RElem.ws1] [' '] t
    ⟨pyStrip t⟩

/-- Value of an ASCII digit list (most significant first). -/
def digitsVal (ds : List Char) : Nat :=
  ds.foldl (fun a c => 10 * a + (c.toNat - 48)) 0

/-- After a first digit, Python's `int()` accepts `(digit | '_' digit)*`
(single underscores strictly between digits).  Returns the digits with
underscores removed. -/
def pyIntDigitsAux : List Char → Option (List Char)
  | [] => some []
  | '_' :: c :: cs => if c.isDigit then (pyIntDigitsAux cs).map (c :: ·) else none
  | ['_'] => none
  | c :: cs => if c.isDigit then (pyIntDigitsAux cs).map (c :: ·) else none

/-- Unsigned part of Python's `int()`: at least one digit, then
`pyIntDigitsAux`. -/
def pyIntNat : List Char → Option Nat
  | [] => none
  | c :: cs =>
      if c.isDigit then (pyIntDigitsAux cs).map (fun ds => digitsVal (c :: ds)) else none

/-- Model of Python `int(s)` on strings (ASCII): optional surrounding
whitespace, optional sign, digits with optional single underscores between
digits; `none` models a raised `ValueError`. -/
def pyInt (s : String) : Option Int :=
  match pyStrip s.data with
  | '+' :: rest => (pyIntNat rest).map Int.ofNat
  | '-' :: rest => (pyIntNat rest).map (fun n => -(n : Int))
  | rest => (pyIntNat rest).map Int.ofNat

/-- Python `str.split(sep)` for a one-character separator. -/
def pySplitOn (sep : Char) : List Char → List (List Char)
  | [] => [[]]
  | c :: cs =>
      if c = sep then [] :: pySplitOn sep cs
      else
        match pySplitOn sep cs with
        | h :: t => (c :: h) :: t
        | [] => [[c]]

/-- A source-history item (`PlayRecord`).  `duration = none` models a
missing/`None` `'duration'` key (`track.get('duration','')` then falsy);
`duration_seconds` likewise.  Fields only used for logging (artist names,
title) are omitted: the embedded logic never reads them. -/
structure Track where
  videoId : String
  duration : Option String
  duration_seconds : Option Int
deriving DecidableEq

/-- The raw-seconds fallback of the duration chain (scrobble_oracle.py:577-583):
the `duration_seconds` field when present and truthy (non-zero), else the
210-second default. -/
def duration_seconds_fallback (t : Track) : Except Unit Int :=
  match t.duration_seconds with
  | some n => if n ≠ 0 then .ok n else .ok 210
  | none => .ok 210

/-- Body of `get_track_duration_seconds` (scrobble_oracle.py:561-587) without
the enclosing `try`; `.error ()` models a `ValueError` raised by `int()` on a
non-numeric component. -/
def get_track_duration_body (t : Track) : Except Unit Int :=
  match t.duration with
  | some d =>
      if d = "" then duration_seconds_fallback t
      else
        match pySplitOn ':' d.data with
        | [a, b] =>
            match pyInt ⟨a⟩, pyInt ⟨b⟩ with
            | some m, some s => .ok (m * 60 + s)
            | _, _ => .error ()
        | [a, b, c] =>
            match pyInt ⟨a⟩, pyInt ⟨b⟩, pyInt ⟨c⟩ with
            | some hh, some mm, some ss => .ok (hh * 3600 + mm * 60 + ss)
            | _, _, _ => .error ()
        | _ => duration_seconds_fallback t
  | none => duration_seconds_fallback t

/-- `get_track_duration_seconds`: the `except` handler turns any raised
error into the 210-second default. -/
def get_track_duration_seconds (t : Track) : Int :=
  match get_track_duration_body t with
  | .ok v => v
  | .error _ => 210

/-- The value of the raw-seconds fallback: `duration_seconds` when present
and non-zero, else 210. -/
def rawSecondsOrDefault (t : Track) : Int :=
  match t.duration_seconds with
  | some n => if n ≠ 0 then n else 210
  | none => 210

/-- A persisted scrobble record (`HistoryEntry`).  The other persisted fields
(artist, title, album, duration, url) are payload never read by the logic
under verification. -/
structure HistoryEntry where
  scrobbled_at : Int
deriving DecidableEq

/-- The history store: a Python dict modelled as an insertion-ordered
association list. -/
def HistoryStore := List (String × HistoryEntry)

/-- `TWO_WEEKS_SECONDS = 14 * 24 * 60 * 60`. -/
def TWO_WEEKS_SECONDS : Int := 14 * 24 * 60 * 60

/-- `cleanup_old_history` (scrobble_oracle.py:146-163); `current_time` models
`int(time.time())`.  Entries with `scrobbled_at >= cutoff` are kept in
iteration order; logging of the removed count is omitted. -/
def cleanup_old_history (current_time : Int) (history : List (String × HistoryEntry)) :
    List (String × HistoryEntry) :=
  let cutoff_time := current_time - TWO_WEEKS_SECONDS
  history.filter (fun kv => decide (cutoff_time ≤ kv.2.scrobbled_at))

/-- `extract_track_id` (history_manager.py:164-168): everything before the
last underscore (`key.rsplit('_', 1)[0]`), or the whole key if it has no
underscore. -/
def extract_track_id (scrobble_key : String) : String :=
  if scrobble_key.data.contains '_' then
    ⟨((scrobble_key.data.reverse.dropWhile (fun c => c != '_')).tail).reverse⟩
  else scrobble_key

/-- Insertion into an ascending list (model of Python `sorted` on ints). -/
def insertAsc (x : Int) : List Int → List Int
  | [] => [x]
  | y :: ys => if x ≤ y then x :: y :: ys else y :: insertAsc x ys

/-- Ascending sort, model of `sorted(timestamps)`. -/
def sortAsc (l : List Int) : List Int := l.foldr insertAsc []

/-- `get_track_scrobble_timestamps` (scrobble_oracle.py:618-625): timestamps
of every entry whose key starts with `"{track_id}_"`, sorted ascending. -/
def get_track_scrobble_timestamps (track_id : String)
    (scrobble_history : List (String × HistoryEntry)) : List Int :=
  sortAsc
    ((scrobble_history.filter
        (fun kv => (track_id ++ "_").data.isPrefixOf kv.1.data)).map
      (fun kv => kv.2.scrobbled_at))

/-- The gap-check loop of `can_scrobble_track`: the first prior timestamp at
absolute distance `< min_gap` from the proposal, returning that gap. -/
def findViolation (min_gap proposed : Int) : List Int → Option Int
  | [] => none
  | t :: ts =>
      let gap := |proposed - t|
      if gap < min_gap then some gap else findViolation min_gap proposed ts

/-- `can_scrobble_track` (scrobble_oracle.py:628-649). -/
def can_scrobble_track (track : Track) (proposed_timestamp : Int)
    (scrobble_history : List (String × HistoryEntry)) : Bool × String :=
  let track_duration := get_track_duration_seconds track
  let previous_timestamps := get_track_scrobble_timestamps track.videoId scrobble_history
  if previous_timestamps = [] then (true, "No previous scrobbles found")
  else
    let min_gap_required := track_duration + 30
    match findViolation min_gap_required proposed_timestamp previous_timestamps with
    | some gap =>
        (false, "Too close to previous scrobble (" ++ toString (gap / 60) ++
          "m gap, need " ++ toString (min_gap_required / 60) ++ "m)")
    | none =>
        (true, "Sufficient gap from " ++ toString previous_timestamps.length ++
          " previous scrobbles")

/-- `find_tracks_to_scrobble` (scrobble_oracle.py:652-678); `current_time`
models `int(time.time())`.  Iterates the newest-first batch in reverse
(oldest first), assigns `current_time - (N - i - 1) * 120` to index `i`, and
keeps the records accepted by `can_scrobble_track` against the *given*
(unchanged) store. -/
def find_tracks_to_scrobble (ytmusic_history : List Track)
    (scrobble_history : List (String × HistoryEntry)) (current_time : Int) :
    List (Track × Int) :=
  let N := ytmusic_history.length
  (ytmusic_history.reverse.enum).filterMap (fun it =>
    let proposed := current_time - ((N : Int) - (it.1 : Int) - 1) * 120
    if (can_scrobble_track it.2 proposed scrobble_history).1 then
      some (it.2, proposed)
    else none)

/-- Instrumented form of the same loop: every record of the reversed batch
with its assigned proposed timestamp and the guard's decision. -/
def find_tracks_proposals (ytmusic_history : List Track)
    (scrobble_history : List (String × HistoryEntry)) (current_time : Int) :
    List (Track × Int × Bool) :=
  let N := ytmusic_history.length
  (ytmusic_history.reverse.enum).map (fun it =>
    let proposed := current_time - ((N : Int) - (it.1 : Int) - 1) * 120
    (it.2, proposed, (can_scrobble_track it.2 proposed scrobble_history).1))

/-- A candidate track record returned by the search provider. -/
structure LastfmTrack where
  artist : String
  name : String
deriving DecidableEq

/-- Stable insertion keeping scores descending (equal scores keep the
earlier element first), modelling Python's stable
`sort(key=..., reverse=True)`. -/
def insertDesc (x : LastfmTrack × Nat) :
    List (LastfmTrack × Nat) → List (LastfmTrack × Nat)
  | [] => [x]
  | y :: ys => if x.2 ≤ y.2 then y :: insertDesc x ys else x :: y :: ys

/-- Stable descending sort by score. -/
def sortDesc (l : List (LastfmTrack × Nat)) : List (LastfmTrack × Nat) :=
  l.foldl (fun acc x => insertDesc x acc) []

/-- `search_lastfm_tracks` (scrobble_oracle.py:383-414).  `provider` is the
outcome of the external `search_for_track`/`get_next_page` call (`.error`
models a raised exception, caught and turned into `[]`).  `similarity`
abstracts `fuzz.ratio` applied to the `normalize_text`-normalized query and
candidate strings (an external library function); candidates are pure
records here, so the per-candidate skip-on-exception branch never fires. -/
def search_lastfm_tracks (provider : Except Unit (List LastfmTrack))
    (similarity : LastfmTrack → Nat) (limit : Nat) : List (LastfmTrack × Nat) :=
  match provider with
  | .error _ => []
  | .ok results => sortDesc ((results.take limit).map (fun tr => (tr, similarity tr)))

/-- `find_best_track_match` (scrobble_oracle.py:427-503).  `provider1` /
`provider2` are the outcomes of the (up to two) provider queries; `select`
abstracts the popularity-weighted float-arithmetic selection over the
surviving candidates (lines 460-503: popularity fetch, 0.7/0.3 weighting);
it may return `none` (all popularity lookups failed).  The second component
is instrumentation: the list of `(artist, title)` queries actually issued,
in order. -/
def find_best_track_match (provider1 provider2 : Except Unit (List LastfmTrack))
    (similarity : LastfmTrack → Nat)
    (select : List (LastfmTrack × Nat) → Option LastfmTrack)
    (artist title original_artist original_title : String) :
    Option LastfmTrack × List (String × String) :=
  let candidates := search_lastfm_tracks provider1 similarity 15
  let retry := candidates.isEmpty && original_artist != "" && original_title != ""
  let queries :=
    if retry then [(artist, title), (original_artist, original_title)]
    else [(artist, title)]
  let candidates := if retry then search_lastfm_tracks provider2 similarity 15 else candidates
  if candidates.isEmpty then (none, queries)
  else
    let good := candidates.filter (fun c => decide (80 ≤ c.2))
    let good :=
      if good.isEmpty then
        match candidates with
        | c :: _ => if 60 ≤ c.2 then [c] else []
        | [] => []
      else good
    if good.isEmpty then (none, queries)
    else (select good, queries)

example : get_track_duration_seconds ⟨"v", some "3:45", none⟩ = 225 := by decide

example : get_track_duration_seconds ⟨"v", some "1:23:45", none⟩ = 5025 := by decide

example : get_track_duration_seconds ⟨"v", some "3:xx", some 200⟩ = 210 := by decide

example : get_track_duration_seconds ⟨"v", some "12", some 200⟩ = 200 := by decide

example : get_track_duration_seconds ⟨"v", none, none⟩ = 210 := by decide

example : extract_track_id "ab_cd_123" = "ab_cd" := by decide

example : get_track_scrobble_timestamps "v" [("v_9", ⟨9⟩), ("w_3", ⟨3⟩), ("v_1", ⟨1⟩)] = [1, 9] := by decide

example : clean_youtube_metadata "A Records Music" true = "A Records" := by decide

/-! ## Helper lemmas -/

theorem dropWhile_append_of_forall {α : Type} {p : α → Bool} (l1 l2 : List α)
    (h : ∀ x ∈ l1, p x = true) : (l1 ++ l2).dropWhile p = l2.dropWhile p := by
  induction l1 with
  | nil => rfl
  | cons a l ih =>
      simp only [List.cons_append, List.dropWhile_cons, h a (List.mem_cons_self a l), if_true]
      exact ih fun x hx => h x (List.mem_cons_of_mem a hx)

theorem findViolation_eq_none_iff (g p : Int) (l : List Int) :
    findViolation g p l = none ↔ ∀ t ∈ l, ¬ |p - t| < g := by
  induction l with
  | nil => simp [findViolation]
  | cons t ts ih =>
      simp only [findViolation]
      split
      next hlt =>
        refine iff_of_false (by simp) ?_
        intro hall
        exact hall t (List.mem_cons_self t ts) hlt
      next hge =>
        rw [ih]
        constructor
        · intro hall t' ht'
          rcases List.mem_cons.mp ht' with rfl | ht'
          · exact hge
          · exact hall t' ht'
        · intro hall t' ht'
          exact hall t' (List.mem_cons_of_mem t ht')

theorem findViolation_some_exists (g p : Int) (l : List Int) (gap : Int)
    (h : findViolation g p l = some gap) : ∃ t ∈ l, |p - t| < g := by
  induction l with
  | nil => simp [findViolation] at h
  | cons t ts ih =>
      simp only [findViolation] at h
      split at h
      next hlt => exact ⟨t, List.mem_cons_self t ts, hlt⟩
      next hge =>
        obtain ⟨t', ht', hlt'⟩ := ih h
        exact ⟨t', List.mem_cons_of_mem t ht', hlt'⟩

/-- The guard accepts any proposal against an empty store. -/
theorem can_scrobble_track_empty_store (t : Track) (p : Int) :
    can_scrobble_track t p [] = (true, "No previous scrobbles found") := rfl

theorem filterMap_some_eq_map {α β : Type} (f : α → β) (l : List α) :
    l.filterMap (fun a => some (f a)) = l.map f := by
  induction l with
  | nil => rfl
  | cons a l ih => simp [List.filterMap_cons, ih]

/-! ## Claim theorems -/

/-- C5: a prune pass (`cleanup_old_history`) keeps exactly the entries whose
`scrobbled_at` is at or after the retention cutoff `now - 14*86400`: an entry
at the cutoff is kept, anything strictly older (one second or more) is
removed, and no entry older than the cutoff survives the pass. -/
theorem cleanup_old_history_mem_iff (current_time : Int)
    (history : List (String × HistoryEntry)) (k : String) (e : HistoryEntry) :
    (k, e) ∈ cleanup_old_history current_time history ↔
      (k, e) ∈ history ∧ current_time - 14 * 86400 ≤ e.scrobbled_at := by
  have hconst : TWO_WEEKS_SECONDS = (14 * 86400 : Int) := by norm_num [TWO_WEEKS_SECONDS]
  simp [cleanup_old_history, List.mem_filter, hconst]

/-- C10: key construction and track-id extraction round-trip: appending
`"_" ++ suffix` (the decimal timestamp, which contains no underscore) to any
track id — underscores in the id included — and extracting recovers the id,
because extraction splits on the last underscore only. -/
theorem extract_track_id_key_roundtrip (track_id s : String) (h : '_' ∉ s.data) :
    extract_track_id (track_id ++ "_" ++ s) = track_id := by
  have hdata : (track_id ++ "_" ++ s).data = track_id.data ++ '_' :: s.data := by
    simp [String.data_append]
  unfold extract_track_id
  rw [hdata]
  have hcontains : (track_id.data ++ '_' :: s.data).contains '_' = true := by
    simp [List.contains_eq_any_beq]
  rw [if_pos hcontains]
  have hrev : (track_id.data ++ '_' :: s.data).reverse =
      s.data.reverse ++ '_' :: track_id.data.reverse := by
    simp
  rw [hrev]
  rw [dropWhile_append_of_forall _ _ (fun x hx => by
    have hne : x ≠ '_' := fun hxeq => h (by
      subst hxeq; exact (List.mem_reverse).mp hx)
    simp [hne])]
  rw [List.dropWhile_cons, if_neg (by simp)]
  simp only [List.tail_cons, List.reverse_reverse]

theorem extract_track_id_key_roundtrip_witness :
    '_' ∉ "123".data ∧ extract_track_id ("ab_cd" ++ "_" ++ "123") = "ab_cd" :=
  ⟨by decide, extract_track_id_key_roundtrip "ab_cd" "123" (by decide)⟩

/-- C4: `can_scrobble_track` accepts unconditionally when the track has no
prior timestamps in the store; with a non-empty prior list it rejects if and
only if some prior timestamp is at absolute distance strictly less than the
track's duration plus 30 seconds from the proposal (so a gap of exactly
duration+30 is accepted and duration+29 is rejected). -/
theorem can_scrobble_track_gap_rule (track : Track) (proposed : Int)
    (hist : List (String × HistoryEntry)) :
    (get_track_scrobble_timestamps track.videoId hist = [] →
      (can_scrobble_track track proposed hist).1 = true) ∧
    (get_track_scrobble_timestamps track.videoId hist ≠ [] →
      ((can_scrobble_track track proposed hist).1 = false ↔
        ∃ t ∈ get_track_scrobble_timestamps track.videoId hist,
          |proposed - t| < get_track_duration_seconds track + 30)) := by
  constructor
  · intro h
    simp [can_scrobble_track, h]
  · intro h
    simp only [can_scrobble_track, if_neg h]
    cases hfv : findViolation (get_track_duration_seconds track + 30) proposed
        (get_track_scrobble_timestamps track.videoId hist) with
    | none =>
        simp only [hfv]
        refine iff_of_false (by simp) ?_
        rintro ⟨t, ht, hlt⟩
        exact (findViolation_eq_none_iff _ _ _).mp hfv t ht hlt
    | some gap =>
        exact iff_of_true (by simp [hfv]) (findViolation_some_exists _ _ _ _ hfv)

theorem can_scrobble_track_gap_rule_witness :
    get_track_scrobble_timestamps "v" [("v_1000", ⟨1000⟩)] ≠ [] ∧
    (can_scrobble_track ⟨"v", some "3:30", none⟩ 1211 [("v_1000", ⟨1000⟩)]).1 = false :=
  ⟨by decide,
    ((can_scrobble_track_gap_rule ⟨"v", some "3:30", none⟩ 1211 [("v_1000", ⟨1000⟩)]).2
      (by decide)).mpr ⟨1000, by decide, by decide⟩⟩

/-- C1 counterexample: with an empty store, a batch of two plays of the same
210-second track gets synthetic timestamps only 120 seconds apart — closer
than the required duration+30 = 240 gap — yet *both* plays appear in the
emitted plan: the planner never feeds timestamps it accepted earlier in the
run back into the duplicate check. -/
theorem find_tracks_same_run_duplicates_cex :
    find_tracks_to_scrobble [⟨"v", some "3:30", none⟩, ⟨"v", some "3:30", none⟩] [] 10000 =
      [(⟨"v", some "3:30", none⟩, 9880), (⟨"v", some "3:30", none⟩, 10000)] ∧
    get_track_duration_seconds ⟨"v", some "3:30", none⟩ + 30 = 240 ∧
    (10000 : Int) - 9880 < 240 := by
  refine ⟨?_, by decide, by decide⟩
  decide

/-- C1 amended: during a single run the duplicate check consults only the
store passed to the planner, never the timestamps accepted earlier in the
same run: against an empty store *every* record of the batch is planned with
its assigned timestamp, same-track repeats included. -/
theorem find_tracks_ignores_same_run_accepts (h : List Track) (now : Int) :
    find_tracks_to_scrobble h [] now =
      h.reverse.enum.map
        (fun it => (it.2, now - ((h.length : Int) - (it.1 : Int) - 1) * 120)) := by
  simp only [find_tracks_to_scrobble, can_scrobble_track_empty_store, if_true]
  exact filterMap_some_eq_map _ _

/-- C9: the planner assigns to the record at 0-based index `i` of the
oldest-first (reversed) batch of length `N` the proposed timestamp
`now - (N - i - 1) * 120`: consecutive proposals differ by exactly +120
seconds (so they are strictly increasing in processing order) and the last
(newest) record receives timestamp `now`; the emitted plan is exactly the
accepted subsequence of these proposals. -/
theorem find_tracks_timestamp_assignment (h : List Track)
    (hist : List (String × HistoryEntry)) (now : Int) :
    ((find_tracks_proposals h hist now).map (fun x => x.1) = h.reverse) ∧
    ((find_tracks_proposals h hist now).map (fun x => x.2.1) =
      (List.range h.length).map
        (fun i : Nat => now - ((h.length : Int) - (i : Int) - 1) * 120)) ∧
    List.Chain' (fun a b => b = a + 120)
      ((find_tracks_proposals h hist now).map (fun x => x.2.1)) ∧
    (h ≠ [] →
      ((find_tracks_proposals h hist now).map (fun x => x.2.1)).getLast? = some now) ∧
    (find_tracks_to_scrobble h hist now =
      (find_tracks_proposals h hist now).filterMap
        (fun x => if x.2.2 then some (x.1, x.2.1) else none)) := by
  have hts : (find_tracks_proposals h hist now).map (fun x => x.2.1) =
      (List.range h.length).map
        (fun i : Nat => now - ((h.length : Int) - (i : Int) - 1) * 120) := by
    simp only [find_tracks_proposals, List.map_map]
    have : ((fun x : Track × Int × Bool => x.2.1) ∘
        (fun it : Nat × Track =>
          (it.2, now - ((h.length : Int) - (it.1 : Int) - 1) * 120,
            (can_scrobble_track it.2
              (now - ((h.length : Int) - (it.1 : Int) - 1) * 120) hist).1))) =
        (fun i : Nat => now - ((h.length : Int) - (i : Int) - 1) * 120) ∘ Prod.fst := rfl
    rw [this, ← List.map_map, List.enum_map_fst, List.length_reverse]
  refine ⟨?_, hts, ?_, ?_, ?_⟩
  · simp only [find_tracks_proposals, List.map_map]
    have : ((fun x : Track × Int × Bool => x.1) ∘
        (fun it : Nat × Track =>
          (it.2, now - ((h.length : Int) - (it.1 : Int) - 1) * 120,
            (can_scrobble_track it.2
              (now - ((h.length : Int) - (it.1 : Int) - 1) * 120) hist).1))) =
        Prod.snd := rfl
    rw [this, List.enum_map_snd]
  · rw [hts]
    rw [List.chain'_map]
    cases hn : h.length with
    | zero => simp
    | succ n =>
        rw [List.chain'_range_succ]
        intro m hm
        push_cast
        ring
  · intro hne
    rw [hts]
    cases hn : h.length with
    | zero => exact absurd (List.length_eq_zero.mp hn) hne
    | succ n =>
        rw [List.range_succ, List.map_append]
        simp only [List.map_cons, List.map_nil]
        rw [List.getLast?_concat]
        congr 1
        push_cast
        ring
  · simp only [find_tracks_to_scrobble, find_tracks_proposals, List.filterMap_map]
    rfl

theorem find_tracks_timestamp_assignment_witness :
    ((find_tracks_proposals [⟨"v", none, none⟩] [] 5).map (fun x => x.2.1)).getLast? =
      some 5 :=
  (find_tracks_timestamp_assignment [⟨"v", none, none⟩] [] 5).2.2.2.1 (by decide)

/-- The query log of `find_best_track_match` is the same in every branch of
the selection stage. -/
theorem find_best_track_match_queries (provider1 provider2 : Except Unit (List LastfmTrack))
    (sim : LastfmTrack → Nat) (select : List (LastfmTrack × Nat) → Option LastfmTrack)
    (a t oa ot : String) :
    (find_best_track_match provider1 provider2 sim select a t oa ot).2 =
      (if (search_lastfm_tracks provider1 sim 15).isEmpty && oa != "" && ot != "" then
        [(a, t), (oa, ot)]
      else [(a, t)]) := by
  cases hr : (search_lastfm_tracks provider1 sim 15).isEmpty && oa != "" && ot != "" with
  | true => simp [find_best_track_match, hr, apply_ite Prod.snd]
  | false => simp [find_best_track_match, hr, apply_ite Prod.snd]

/-- C6 counterexample: with a provider that returns zero candidates and a
fallback equal to the cleaned metadata, `find_best_track_match` still issues
a second, identical retry query: the code never compares the fallback with
the cleaned metadata. -/
theorem find_best_retry_equal_fallback_cex :
    (find_best_track_match (Except.ok []) (Except.ok [])
        (fun _ => 0) (fun _ => none) "a" "t" "a" "t").2 = [("a", "t"), ("a", "t")] := by
  decide

/-- C6 amended: `find_best_track_match` retries with the fallback metadata
exactly when the cleaned-metadata query returned zero candidates and both
fallback fields are non-empty; whether the fallback differs from the cleaned
metadata is not consulted. -/
theorem find_best_retry_iff (provider1 provider2 : Except Unit (List LastfmTrack))
    (sim : LastfmTrack → Nat) (select : List (LastfmTrack × Nat) → Option LastfmTrack)
    (a t oa ot : String) :
    2 ≤ (find_best_track_match provider1 provider2 sim select a t oa ot).2.length ↔
      (search_lastfm_tracks provider1 sim 15 = [] ∧ oa ≠ "" ∧ ot ≠ "") := by
  rw [find_best_track_match_queries]
  split
  next hcond =>
    refine iff_of_true (by simp) ?_
    have h1 := hcond
    simp only [Bool.and_eq_true, List.isEmpty_iff, bne_iff_ne, ne_eq] at h1
    exact ⟨h1.1.1, h1.1.2, h1.2⟩
  next hcond =>
    refine iff_of_false (by simp) ?_
    rintro ⟨he, hoa, hot⟩
    exact hcond (by simp [he, hoa, hot])

/-- C8: a provider exception is treated as zero candidates, and
`find_best_track_match` returns `none` rather than raising when the search
yields no candidates and no usable fallback metadata is supplied, or when
the provider fails on both the cleaned and the fallback query. -/
theorem find_best_no_match_graceful (provider1 provider2 : Except Unit (List LastfmTrack))
    (sim : LastfmTrack → Nat) (select : List (LastfmTrack × Nat) → Option LastfmTrack)
    (a t oa ot : String) :
    (search_lastfm_tracks (Except.error ()) sim 15 = []) ∧
    (search_lastfm_tracks provider1 sim 15 = [] → (oa = "" ∨ ot = "") →
      (find_best_track_match provider1 provider2 sim select a t oa ot).1 = none) ∧
    ((find_best_track_match (Except.error ()) (Except.error ()) sim select a t oa ot).1 =
      none) := by
  refine ⟨rfl, ?_, ?_⟩
  · intro hempty hfb
    have hretry : ((search_lastfm_tracks provider1 sim 15).isEmpty && oa != "" &&
        ot != "") = false := by
      rcases hfb with rfl | rfl <;> simp
    simp only [find_best_track_match]
    rw [hretry]
    simp [hempty]
  · have hc : search_lastfm_tracks (Except.error ()) sim 15 = [] := rfl
    cases hr : (search_lastfm_tracks (Except.error ()) sim 15).isEmpty && oa != "" &&
        ot != "" with
    | true => simp [find_best_track_match, hr, hc]
    | false => simp [find_best_track_match, hr, hc]

theorem find_best_no_match_graceful_witness :
    (find_best_track_match (Except.ok []) (Except.ok [])
        (fun _ => 0) (fun _ => none) "a" "t" "" "").1 = none :=
  (find_best_no_match_graceful (Except.ok []) (Except.ok [])
    (fun _ => 0) (fun _ => none) "a" "t" "" "").2.1 (by decide) (Or.inl rfl)

theorem duration_seconds_fallback_eval (t : Track) :
    duration_seconds_fallback t = Except.ok (rawSecondsOrDefault t) := by
  cases hs : t.duration_seconds with
  | none => simp [duration_seconds_fallback, rawSecondsOrDefault, hs]
  | some n =>
      by_cases hn : n = 0 <;>
        simp [duration_seconds_fallback, rawSecondsOrDefault, hs, hn]

/-- C7: `get_track_duration_seconds` is total and never propagates an error:
a textual `M:SS` duration whose two components parse as Python ints yields
`m*60+s`; a textual `H:MM:SS` yields `h*3600+m*60+s`; a textual field that
is absent, empty, or not colon-split into 2 or 3 components falls back to
the raw seconds field when present and non-zero, else the 210-second
default; and a 2- or 3-component textual field with a non-integer component
(an internal `ValueError`) yields the 210 default rather than an error. -/
theorem get_track_duration_chain (t : Track) :
    (∀ d a b m s, t.duration = some d → pySplitOn ':' d.data = [a, b] →
      pyInt ⟨a⟩ = some m → pyInt ⟨b⟩ = some s →
      get_track_duration_seconds t = m * 60 + s) ∧
    (∀ d a b c hh mm ss, t.duration = some d → pySplitOn ':' d.data = [a, b, c] →
      pyInt ⟨a⟩ = some hh → pyInt ⟨b⟩ = some mm → pyInt ⟨c⟩ = some ss →
      get_track_duration_seconds t = hh * 3600 + mm * 60 + ss) ∧
    (∀ d a b, t.duration = some d → pySplitOn ':' d.data = [a, b] →
      (pyInt ⟨a⟩ = none ∨ pyInt ⟨b⟩ = none) →
      get_track_duration_seconds t = 210) ∧
    (∀ d a b c, t.duration = some d → pySplitOn ':' d.data = [a, b, c] →
      (pyInt ⟨a⟩ = none ∨ pyInt ⟨b⟩ = none ∨ pyInt ⟨c⟩ = none) →
      get_track_duration_seconds t = 210) ∧
    (∀ d, t.duration = some d → d ≠ "" →
      (pySplitOn ':' d.data).length ≠ 2 → (pySplitOn ':' d.data).length ≠ 3 →
      get_track_duration_seconds t = rawSecondsOrDefault t) ∧
    ((t.duration = none ∨ t.duration = some "") →
      get_track_duration_seconds t = rawSecondsOrDefault t) := by
  refine ⟨?_, ?_, ?_, ?_, ?_, ?_⟩
  · intro d a b m s hd hsplit ha hb
    have hdne : d ≠ "" := by
      rintro rfl
      simp [pySplitOn] at hsplit
    simp [get_track_duration_seconds, get_track_duration_body, hd, hdne, hsplit, ha, hb]
  · intro d a b c hh mm ss hd hsplit ha hb hc
    have hdne : d ≠ "" := by
      rintro rfl
      simp [pySplitOn] at hsplit
    simp [get_track_duration_seconds, get_track_duration_body, hd, hdne, hsplit,
      ha, hb, hc]
  · intro d a b hd hsplit hfail
    have hdne : d ≠ "" := by
      rintro rfl
      simp [pySplitOn] at hsplit
    rcases hfail with hfa | hfb
    · simp [get_track_duration_seconds, get_track_duration_body, hd, hdne, hsplit, hfa]
    · cases ha : pyInt ⟨a⟩ <;>
        simp [get_track_duration_seconds, get_track_duration_body, hd, hdne, hsplit,
          ha, hfb]
  · intro d a b c hd hsplit hfail
    have hdne : d ≠ "" := by
      rintro rfl
      simp [pySplitOn] at hsplit
    rcases hfail with hfa | hfb | hfc
    · simp [get_track_duration_seconds, get_track_duration_body, hd, hdne, hsplit, hfa]
    · cases ha : pyInt ⟨a⟩ <;>
        simp [get_track_duration_seconds, get_track_duration_body, hd, hdne, hsplit,
          ha, hfb]
    · cases ha : pyInt ⟨a⟩ <;> cases hb : pyInt ⟨b⟩ <;>
        simp [get_track_duration_seconds, get_track_duration_body, hd, hdne, hsplit,
          ha, hb, hfc]
  · intro d hd hdne h2 h3
    rcases hp : pySplitOn ':' d.data with _ | ⟨x, _ | ⟨y, _ | ⟨z, _ | ⟨w, rest⟩⟩⟩⟩
    · simp [get_track_duration_seconds, get_track_duration_body, hd, hdne, hp,
        duration_seconds_fallback_eval]
    · simp [get_track_duration_seconds, get_track_duration_body, hd, hdne, hp,
        duration_seconds_fallback_eval]
    · rw [hp] at h2
      simp at h2
    · rw [hp] at h3
      simp at h3
    · simp [get_track_duration_seconds, get_track_duration_body, hd, hdne, hp,
        duration_seconds_fallback_eval]
  · intro hd
    rcases hd with hd | hd <;>
      simp [get_track_duration_seconds, get_track_duration_body, hd,
        duration_seconds_fallback_eval]

theorem get_track_duration_chain_witness :
    get_track_duration_seconds ⟨"v", some "3:45", none⟩ = 3 * 60 + 45 :=
  (get_track_duration_chain ⟨"v", some "3:45", none⟩).1 "3:45" "3".data "45".data 3 45
    rfl (by decide) (by decide) (by decide)

/-- C3 (code bug): three consecutive collaboration markers defeat the
single-pass doubled-token collapse: `"a & & & b"` normalizes to
`"a ft ft b"`, which still contains two adjacent standalone `ft` tokens
(the whole-word occurrence `" ft ft "`), contradicting the intended
"collapse multiple ft occurrences" behaviour. -/
theorem normalize_featuring_adjacent_ft_bug :
    normalize_featuring_artists "a & & & b" = "a ft ft b" ∧
    (" ft ft ").data.IsInfix (" " ++ normalize_featuring_artists "a & & & b" ++ " ").data := by
  refine ⟨by decide, ?_⟩
  decide

/-- C2 counterexample: `clean_youtube_metadata` is not idempotent: on
`"A Records Music"` one application only strips the `Music` suffix (the text
does not *end* in `Records` yet), and a second application strips `Records`
as well. -/
theorem clean_youtube_metadata_not_idempotent_cex :
    clean_youtube_metadata (clean_youtube_metadata "A Records Music" true) true ≠
      clean_youtube_metadata "A Records Music" true := by
  decide

theorem reMatchF_min_consume (ci : Bool) :
    ∀ fuel p prev rest rem, reMatchF ci fuel p prev rest = some rem →
      rem.length + minConsume p ≤ rest.length := by
  intro fuel
  induction fuel with
  | zero =>
      intro p prev rest rem h
      simp [reMatchF] at h
  | succ fuel ih =>
      intro p prev rest rem h
      cases p with
      | nil =>
          simp only [reMatchF, Option.some.injEq] at h
          subst h
          simp [minConsume]
      | cons e ps =>
          cases e with
          | lit c =>
              cases rest with
              | nil => simp [reMatchF] at h
              | cons d ds =>
                  by_cases hm : litMatches ci c d
                  · simp only [reMatchF, hm, if_true] at h
                    have := ih ps (some d) ds rem h
                    simp only [minConsume, List.length_cons]
                    omega
                  · simp [reMatchF, hm] at h
          | ws0 =>
              cases rest with
              | nil =>
                  simp only [reMatchF] at h
                  have := ih ps prev [] rem h
                  simpa [minConsume] using this
              | cons d ds =>
                  by_cases hs : isPySpace d
                  · simp only [reMatchF, hs, if_true] at h
                    cases hrec : reMatchF ci fuel (RElem.ws0 :: ps) (some d) ds with
                    | some rem' =>
                        rw [hrec] at h
                        simp only [Option.some.injEq] at h
                        subst h
                        have := ih (RElem.ws0 :: ps) (some d) ds rem' hrec
                        simp only [minConsume] at this ⊢
                        simp only [List.length_cons]
                        omega
                    | none =>
                        rw [hrec] at h
                        have := ih ps prev (d :: ds) rem h
                        simpa [minConsume] using this
                  · simp only [reMatchF, hs, if_false] at h
                    have := ih ps prev (d :: ds) rem h
                    simpa [minConsume] using this
          | ws1 =>
              cases rest with
              | nil => simp [reMatchF] at h
              | cons d ds =>
                  by_cases hs : isPySpace d
                  · simp only [reMatchF, hs, if_true] at h
                    have := ih (RElem.ws0 :: ps) (some d) ds rem h
                    simp only [minConsume] at this ⊢
                    simp only [List.length_cons]
                    omega
                  · simp [reMatchF, hs] at h
          | wb =>
              by_cases hb : wordBoundary prev rest.head?
              · simp only [reMatchF, hb, if_true] at h
                have := ih ps prev rest rem h
                simpa [minConsume] using this
              · simp [reMatchF, hb] at h
          | eos =>
              by_cases he : (rest = [] || decide (rest = ['\n'])) = true
              · simp only [reMatchF] at h
                rw [if_pos he] at h
                have := ih ps prev rest rem h
                simpa [minConsume] using this
              · simp only [reMatchF] at h
                rw [if_neg he] at h
                exact absurd h (by simp)

theorem reMatch_min_consume (ci : Bool) (p : List RElem) (prev : Option Char)
    (rest rem : List Char) (h : reMatch ci p prev rest = some rem) :
    rem.length + minConsume p ≤ rest.length :=
  reMatchF_min_consume ci _ p prev rest rem h

theorem reSubF_length_le (ci : Bool) (p : List RElem) (repl : List Char)
    (h1 : 1 ≤ minConsume p) (h2 : repl.length ≤ minConsume p) :
    ∀ fuel prev s, s.length < fuel →
      (reSubF ci p repl fuel prev s).length ≤ s.length := by
  intro fuel
  induction fuel with
  | zero => intro prev s hlt; omega
  | succ fuel ih =>
      intro prev s hlt
      cases s with
      | nil =>
          cases hm : reMatch ci p prev [] with
          | some rem =>
              have h0 : rem.length + minConsume p ≤ 0 :=
                reMatch_min_consume ci p prev [] rem hm
              omega
          | none => simp [reSubF, hm]
      | cons d ds =>
          cases hm : reMatch ci p prev (d :: ds) with
          | none =>
              simp only [reSubF, hm, List.length_cons]
              have := ih (some d) ds (by simp at hlt; omega)
              omega
          | some rem =>
              have hcons := reMatch_min_consume ci p prev (d :: ds) rem hm
              simp only [List.length_cons] at hcons
              have hn0 : (d :: ds).length - rem.length ≠ 0 := by
                simp only [List.length_cons]
                omega
              simp only [reSubF, hm]
              rw [if_neg hn0]
              have hrem : rem.length < fuel := by
                simp only [List.length_cons] at hlt
                omega
              have hrec := ih (((d :: ds).take ((d :: ds).length - rem.length)).getLast?.getD d)
                rem hrem
              simp only [List.length_cons] at hrec
              simp only [List.length_append, List.length_cons]
              omega

theorem reSubF_eq_or_lt (ci : Bool) (p : List RElem) (repl : List Char)
    (h2 : repl.length < minConsume p) :
    ∀ fuel prev s, s.length < fuel →
      reSubF ci p repl fuel prev s = s ∨
        (reSubF ci p repl fuel prev s).length < s.length := by
  have h1 : 1 ≤ minConsume p := by omega
  intro fuel
  induction fuel with
  | zero => intro prev s hlt; omega
  | succ fuel ih =>
      intro prev s hlt
      cases s with
      | nil =>
          cases hm : reMatch ci p prev [] with
          | some rem =>
              have h0 : rem.length + minConsume p ≤ 0 :=
                reMatch_min_consume ci p prev [] rem hm
              omega
          | none => left; simp [reSubF, hm]
      | cons d ds =>
          cases hm : reMatch ci p prev (d :: ds) with
          | none =>
              simp only [reSubF, hm]
              rcases ih (some d) ds (by simp at hlt; omega) with he | hl
              · left; rw [he]
              · right
                simp only [List.length_cons]
                omega
          | some rem =>
              have hcons := reMatch_min_consume ci p prev (d :: ds) rem hm
              simp only [List.length_cons] at hcons
              have hn0 : (d :: ds).length - rem.length ≠ 0 := by
                simp only [List.length_cons]
                omega
              right
              simp only [reSubF, hm]
              rw [if_neg hn0]
              have hrem : rem.length < fuel := by
                simp only [List.length_cons] at hlt
                omega
              have hrec := reSubF_length_le ci p repl h1 (by omega) fuel
                (((d :: ds).take ((d :: ds).length - rem.length)).getLast?.getD d) rem hrem
              simp only [List.length_cons] at hrec
              simp only [List.length_append, List.length_cons]
              omega

theorem reSub_eq_or_lt (ci : Bool) (p : List RElem) (repl : List Char)
    (h2 : repl.length < minConsume p) (s : List Char) :
    reSub ci p repl s = s ∨ (reSub ci p repl s).length < s.length :=
  reSubF_eq_or_lt ci p repl h2 (s.length + 1) none s (by omega)

theorem dropWhile_eq_or_lt {α : Type} (p : α → Bool) (l : List α) :
    l.dropWhile p = l ∨ (l.dropWhile p).length < l.length := by
  have hsub : (l.dropWhile p).Sublist l := List.dropWhile_sublist _
  have hle := hsub.length_le
  rcases Nat.eq_or_lt_of_le hle with he | hl
  · left; exact hsub.eq_of_length he
  · right; exact hl

theorem pyStrip_eq_or_lt (s : List Char) :
    pyStrip s = s ∨ (pyStrip s).length < s.length := by
  unfold pyStrip
  rcases dropWhile_eq_or_lt isPySpace s with h1 | h1
  · rw [h1]
    rcases dropWhile_eq_or_lt isPySpace s.reverse with h2 | h2
    · left; rw [h2, List.reverse_reverse]
    · right
      rw [List.length_reverse]
      simpa using h2
  · right
    have hle : ((s.dropWhile isPySpace).reverse.dropWhile isPySpace).length ≤
        (s.dropWhile isPySpace).reverse.length :=
      (List.dropWhile_sublist _).length_le
    rw [List.length_reverse] at hle
    rw [List.length_reverse]
    omega

theorem comp_eq_or_lt {f g : List Char → List Char}
    (hf : ∀ s, f s = s ∨ (f s).length < s.length)
    (hg : ∀ s, g s = s ∨ (g s).length < s.length) (s : List Char) :
    g (f s) = s ∨ (g (f s)).length < s.length := by
  rcases hf s with hfe | hfl
  · rw [hfe]; exact hg s
  · rcases hg (f s) with hge | hgl
    · rw [hge]; right; exact hfl
    · right; exact hgl.trans hfl

theorem foldl_reSub_eq_or_lt (ci : Bool) (repl : List Char)
    (pats : List (List RElem)) (hp : ∀ p ∈ pats, repl.length < minConsume p) :
    ∀ s, pats.foldl (fun acc p => reSub ci p repl acc) s = s ∨
      (pats.foldl (fun acc p => reSub ci p repl acc) s).length < s.length := by
  induction pats with
  | nil => intro s; left; rfl
  | cons q qs ih =>
      intro s
      simp only [List.foldl_cons]
      exact comp_eq_or_lt
        (fun s => reSub_eq_or_lt ci q repl (hp q (List.mem_cons_self q qs)) s)
        (ih fun p hpmem => hp p (List.mem_cons_of_mem q hpmem)) s

theorem clean_youtube_metadata_eq_or_lt (text : String) (b : Bool) :
    clean_youtube_metadata text b = text ∨
      (clean_youtube_metadata text b).length < text.length := by
  by_cases htext : text = ""
  · left; simp [clean_youtube_metadata, htext]
  · have hsuf : ∀ p ∈ youtube_suffixes, ([] : List Char).length < minConsume p := by
      decide
    have hend : ∀ p ∈ title_cleanup_texts.map endPat,
        ([] : List Char).length < minConsume p := by decide
    have hmid : ∀ p ∈ title_cleanup_texts.map midPat,
        ([' '] : List Char).length < minConsume p := by decide
    have hpipe :
        (fun s : List Char => pyStrip
          ((fun u => if b then u
            else (title_cleanup_texts.map midPat).foldl
              (fun acc p => reSub true p [' '] acc)
                ((title_cleanup_texts.map endPat).foldl
                  (fun acc p => reSub true p [] acc) u))
            (youtube_suffixes.foldl (fun acc p => reSub true p [] acc)
              (pyStrip s)))) text.data = text.data ∨
        ((fun s : List Char => pyStrip
          ((fun u => if b then u
            else (title_cleanup_texts.map midPat).foldl
              (fun acc p => reSub true p [' '] acc)
                ((title_cleanup_texts.map endPat).foldl
                  (fun acc p => reSub true p [] acc) u))
            (youtube_suffixes.foldl (fun acc p => reSub true p [] acc)
              (pyStrip s)))) text.data).length < text.data.length := by
      refine comp_eq_or_lt (f := fun s =>
          (fun u => if b then u
            else (title_cleanup_texts.map midPat).foldl
              (fun acc p => reSub true p [' '] acc)
                ((title_cleanup_texts.map endPat).foldl
                  (fun acc p => reSub true p [] acc) u))
            (youtube_suffixes.foldl (fun acc p => reSub true p [] acc) (pyStrip s)))
        (g := pyStrip) ?_ pyStrip_eq_or_lt text.data
      intro s
      refine comp_eq_or_lt (f := fun s =>
          youtube_suffixes.foldl (fun acc p => reSub true p [] acc) (pyStrip s))
        (g := fun u => if b then u
          else (title_cleanup_texts.map midPat).foldl
            (fun acc p => reSub true p [' '] acc)
              ((title_cleanup_texts.map endPat).foldl
                (fun acc p => reSub true p [] acc) u)) ?_ ?_ s
      · intro s'
        exact comp_eq_or_lt (f := pyStrip)
          (g := fun u => youtube_suffixes.foldl (fun acc p => reSub true p [] acc) u)
          pyStrip_eq_or_lt (foldl_reSub_eq_or_lt true [] youtube_suffixes hsuf) s'
      · intro u
        cases b with
        | true => left; rfl
        | false =>
            exact comp_eq_or_lt
              (f := fun u => (title_cleanup_texts.map endPat).foldl
                (fun acc p => reSub true p [] acc) u)
              (g := fun u => (title_cleanup_texts.map midPat).foldl
                (fun acc p => reSub true p [' '] acc) u)
              (foldl_reSub_eq_or_lt true [] _ hend)
              (foldl_reSub_eq_or_lt true [' '] _ hmid) u
    have hclean : clean_youtube_metadata text b =
        ⟨(fun s : List Char => pyStrip
          ((fun u => if b then u
            else (title_cleanup_texts.map midPat).foldl
              (fun acc p => reSub true p [' '] acc)
                ((title_cleanup_texts.map endPat).foldl
                  (fun acc p => reSub true p [] acc) u))
            (youtube_suffixes.foldl (fun acc p => reSub true p [] acc)
              (pyStrip s)))) text.data⟩ := by
      simp only [clean_youtube_metadata, if_neg htext]
    rcases hpipe with he | hl
    · left
      rw [hclean, he]
    · right
      rw [hclean]
      exact hl

theorem iterate_eq_or_bound (f : String → String)
    (hf : ∀ s, f s = s ∨ (f s).length < s.length) (T : String) :
    ∀ n, f^[n + 1] T = f^[n] T ∨ (f^[n] T).length + n ≤ T.length := by
  intro n
  induction n with
  | zero => right; simp
  | succ n ih =>
      rcases ih with he | hb
      · left
        calc f^[n + 1 + 1] T = f (f^[n + 1] T) := Function.iterate_succ_apply' f (n + 1) T
          _ = f (f^[n] T) := by rw [he]
          _ = f^[n + 1] T := (Function.iterate_succ_apply' f n T).symm
      · rcases hf (f^[n] T) with he | hl
        · left
          calc f^[n + 1 + 1] T = f (f^[n + 1] T) := Function.iterate_succ_apply' f (n + 1) T
            _ = f (f (f^[n] T)) := by rw [Function.iterate_succ_apply' f n T]
            _ = f (f^[n] T) := congrArg f he
            _ = f^[n + 1] T := (Function.iterate_succ_apply' f n T).symm
        · right
          have hlt : (f^[n + 1] T).length < (f^[n] T).length := by
            rw [Function.iterate_succ_apply' f n T]
            exact hl
          omega

/-- C2 amended: `clean_youtube_metadata` is not idempotent (a second
application can strip further stacked suffixes), but every application
either fixes the text or strictly shortens it, so iterating the function
reaches a fixed point after at most `length + 1` applications. -/
theorem clean_youtube_metadata_iterate_fixed (text : String) (b : Bool) :
    (fun s => clean_youtube_metadata s b)^[text.length + 1] text =
      (fun s => clean_youtube_metadata s b)^[text.length + 2] text := by
  have h := iterate_eq_or_bound (fun s => clean_youtube_metadata s b)
    (fun s => clean_youtube_metadata_eq_or_lt s b) text (text.length + 1)
  rcases h with he | hb
  · exact he.symm
  · exact absurd hb (by omega)

example : clean_youtube_metadata "A Records" true = "A" := by decide

example : normalize_featuring_artists "a & & & b" = "a ft ft b" := by decide

example : normalize_featuring_artists "a & b" = "a ft b" := by decide

example : clean_youtube_metadata "Drake VEVO" true = "Drake" := by decide

example : clean_youtube_metadata "God's Plan (Official Video)" false = "God's Plan" := by decide

end ScrobbleOracle
